import Mathlib

set_option maxHeartbeats 1000000

/-!
Verification of `src/get_results.py` / `src/picke_to_txt.py` (the two files
hold the same routine `pickle_to_txt(pickle_file, output_dir)`).

Modelling choices:
* Every numeric value (a box coordinate or a score) is represented by the
  string that Python's default f-string interpolation renders for it; the
  routine never computes with the numbers, it only interpolates them, so this
  representation is lossless for everything the routine does.
* The filesystem is an association list from path to file content, plus the
  list of created directories; standard output is a list of printed lines.
* `pickle.load` is modelled by a `LoadResult` argument: either the
  deserialized list of records, or the exception message raised while
  opening / deserializing the file.
* A missing dictionary key is an `Option` field that is `none`; accessing it
  raises `KeyError`, exactly as `sample['frame_id']` does in Python.
-/

namespace GetResults

/-- A numeric value, represented by its default decimal text rendering
    (the exact string the f-string in line 28 of the source interpolates). -/
abbrev Val := String

/-- A detection box as stored in the pickle record: an ordered sequence of
    numeric values (seven for a well-formed box). -/
abbrev Box := List Val

/-- One record of the deserialized result list.  A field is `none` when the
    corresponding dictionary key is absent, in which case the subscript
    access in lines 18-20 of the source raises `KeyError`. -/
structure Sample where
  frame_id : Option String
  boxes_lidar : Option (List Box)
  score : Option (List Val)
deriving DecidableEq, Repr

/-- The Python exceptions the body of `pickle_to_txt` can raise in the model. -/
inductive PyError where
  | keyError (k : String)
  | valueNotEnough (expected got : Nat)
  | valueTooMany (expected : Nat)
  | loadError (msg : String)
deriving DecidableEq, Repr

/-- Python text of the modelled exceptions, as interpolated by line 35. -/
def errMsg : PyError → String
  | .keyError k => "\x27" ++ k ++ "\x27"
  | .valueNotEnough n g =>
      "not enough values to unpack (expected " ++ toString n ++ ", got " ++ toString g ++ ")"
  | .valueTooMany n => "too many values to unpack (expected " ++ toString n ++ ")"
  | .loadError m => m

/-- Result of `open(pickle_file, 'rb')` followed by `pickle.load(f)`:
    either the deserialized list of records or the raised exception text. -/
inductive LoadResult where
  | ok (data : List Sample)
  | err (msg : String)
deriving DecidableEq, Repr

/-- The observable machine state: files on disk (path to content, each path
    listed once), the set of created directories, and standard output. -/
@[ext]
structure World where
  files : List (String × String)
  dirs : List String
  out : List String
deriving DecidableEq, Repr

def emptyWorld : World := ⟨[], [], []⟩

/-- Store content `c` at path `p`: update in place when the path exists
    (open mode `'w'` truncates), append a new entry otherwise. -/
def fsWriteF : List (String × String) → String → String → List (String × String)
  | [], p, c => [(p, c)]
  | (q, d) :: rest, p, c =>
      if q = p then (p, c) :: rest else (q, d) :: fsWriteF rest p c

/-- Look the path up in the file table. -/
def fsGetF : List (String × String) → String → Option String
  | [], _ => none
  | (q, d) :: rest, p => if q = p then some d else fsGetF rest p

def writeFile (w : World) (p c : String) : World := { w with files := fsWriteF w.files p c }

def fsGet (w : World) (p : String) : Option String := fsGetF w.files p

/-- One call of `print`: append one line to standard output. -/
def pushOut (w : World) (m : String) : World := { w with out := w.out ++ [m] }

/-- Directory creation as `os.makedirs(output_dir, exist_ok=True)` does it:
    create the directory if it is not already present; never an error when it
    exists. -/
def ensureDir (w : World) (d : String) : World :=
  if w.dirs.contains d then w else { w with dirs := w.dirs ++ [d] }

/-- The exception raised by the tuple unpacking
    `x, y, z, length, width, height, rotation = box` (line 27)
    when `box` does not have exactly seven elements. -/
def unpackErr (b : Box) : PyError :=
  if b.length < 7 then PyError.valueNotEnough 7 b.length else PyError.valueTooMany 7

/-- Lines 27-28 of the source: unpack the seven box fields and render the
    output line `f"{x} {y} {z} {length} {width} {height} {rotation} {score}\n"`. -/
def formatBox (b : Box) (s : Val) : Except PyError String :=
  match b with
  | [x, y, z, length, width, height, rot] =>
      Except.ok (x ++ " " ++ y ++ " " ++ z ++ " " ++ length ++ " " ++ width ++ " "
        ++ height ++ " " ++ rot ++ " " ++ s ++ "\n")
  | b => Except.error (unpackErr b)

/-- The inner loop, lines 26-30: for each `(box, score)` pair produced by
    `zip`, unpack, write the rendered line into the open file (modelled by the
    accumulator `acc`, committed when the `with` block closes the file), and
    print the per-box progress message.  Returns the file content written so
    far, the printed messages, and the exception if unpacking failed. -/
def writeBoxLoop (fid : String) (j : Nat) (pairs : List (Box × Val)) (acc : String)
    (out : List String) : String × List String × Option PyError :=
  match pairs with
  | [] => (acc, out, none)
  | (b, s) :: rest =>
    match formatBox b s with
    | .ok line =>
        writeBoxLoop fid (j + 1) rest (acc ++ line)
          (out ++ ["Written box " ++ toString j ++ " for frame " ++ fid])
    | .error e => (acc, out, some e)

/-- Lines 17-32, one iteration of `for i, sample in enumerate(data)`:
    access the three record fields (raising `KeyError` when absent), open the
    per-frame file for truncating write, run the box loop, commit the file
    content on close (the `with` statement closes the file even when the loop
    raises, so partial content reaches the disk), and print the progress
    messages. -/
def processSample (od : String) (w : World) (s : Sample) : World × Option PyError :=
  match s.frame_id with
  | none => (w, some (PyError.keyError "frame_id"))
  | some fid =>
    match s.boxes_lidar with
    | none => (w, some (PyError.keyError "boxes_lidar"))
    | some boxes =>
      match s.score with
      | none => (w, some (PyError.keyError "score"))
      | some scores =>
        let path := od ++ "/" ++ fid ++ ".txt"
        let w := pushOut w ("Writing to file: " ++ path)
        match writeBoxLoop fid 0 (boxes.zip scores) "" [] with
        | (content, msgs, none) =>
            (pushOut { writeFile w path content with out := w.out ++ msgs }
              ("Completed writing for frame " ++ fid), none)
        | (content, msgs, some e) =>
            ({ writeFile w path content with out := w.out ++ msgs }, some e)

/-- The frame loop, lines 17-32: process the records in order, stopping at
    the first raised exception. -/
def processSamples (od : String) (w : World) : List Sample → World × Option PyError
  | [] => (w, none)
  | s :: rest =>
    match processSample od w s with
    | (w, none) => processSamples od w rest
    | (w, some e) => (w, some e)

/-- The `try` block, lines 6-32: load the pickle, create the output
    directory, return early on an empty result list, then run the frame
    loop.  The second component is the exception the block raised, if any. -/
def bodyRun (pf od : String) (load : LoadResult) (w : World) : World × Option PyError :=
  let w := pushOut w ("Loading pickle file: " ++ pf)
  match load with
  | .err msg => (w, some (PyError.loadError msg))
  | .ok data =>
    let w := pushOut w ("Creating output directory: " ++ od)
    let w := ensureDir w od
    match data with
    | [] => (pushOut w "No data found in pickle file.", none)
    | _ => processSamples od w data

/-- What `pickle_to_txt` delivers to its caller: either a normal return
    carrying the Python return value (`none` models `None`), or a propagated
    exception. -/
inductive Outcome where
  | normal (ret : Option Int) (w : World)
  | raised (e : PyError) (w : World)
deriving DecidableEq, Repr

def worldOf : Outcome → World
  | .normal _ w => w
  | .raised _ w => w

def retOf : Outcome → Option Int
  | .normal r _ => r
  | .raised _ _ => none

/-- The whole routine, lines 4-35: the `try` body wrapped in
    `except Exception as e: print(f"An error occurred: {e}")`.  Every path
    returns `None`. -/
def pickle_to_txt (pf od : String) (load : LoadResult) (w : World) : Outcome :=
  match bodyRun pf od load w with
  | (w, none) => Outcome.normal none w
  | (w, some e) => Outcome.normal none (pushOut w ("An error occurred: " ++ errMsg e))

/-- The run took the `except` branch (so the diagnostic line was printed);
    this is the only error signal the routine produces. -/
def errorReported (pf od : String) (load : LoadResult) (w : World) : Bool :=
  (bodyRun pf od load w).2.isSome

/-! ### Analysis layer: the pure effect of one record, and of the whole run -/

/-- The effect of one record, independent of the surrounding state: the file
    write it performs (path and committed content), if any, and the exception
    it raises, if any. -/
def sampleOut (od : String) (s : Sample) : Option (String × String) × Option PyError :=
  match s.frame_id with
  | none => (none, some (PyError.keyError "frame_id"))
  | some fid =>
    match s.boxes_lidar with
    | none => (none, some (PyError.keyError "boxes_lidar"))
    | some boxes =>
      match s.score with
      | none => (none, some (PyError.keyError "score"))
      | some scores =>
        let r := writeBoxLoop fid 0 (boxes.zip scores) "" []
        (some (od ++ "/" ++ fid ++ ".txt", r.1), r.2.2)

/-- The file writes the frame loop performs before it stops (at the end of
    the list, or at the first raised exception). -/
def runWrites (od : String) : List Sample → List (String × String)
  | [] => []
  | s :: rest =>
    match sampleOut od s with
    | (some pc, none) => pc :: runWrites od rest
    | (some pc, some _) => [pc]
    | (none, _) => []

/-- The exception the frame loop raises, if any. -/
def runErr (od : String) : List Sample → Option PyError
  | [] => none
  | s :: rest =>
    match (sampleOut od s).2 with
    | none => runErr od rest
    | some e => some e

/-- Apply a list of writes, in order, to a file table. -/
def applyWrites (m : List (String × String)) : List (String × String) → List (String × String)
  | [] => m
  | (p, c) :: ws => applyWrites (fsWriteF m p c) ws

/-- The content of the last write to path `p` in the list, if any. -/
def lastWrite : List (String × String) → String → Option String
  | [], _ => none
  | (q, c) :: ws, p =>
    match lastWrite ws p with
    | some d => some d
    | none => if q = p then some c else none

/-- A record on which lines 18-28 raise nothing: all three fields present,
    the two sequences equally long, every box of exactly seven values. -/
def goodSampleB (s : Sample) : Bool :=
  match s.frame_id, s.boxes_lidar, s.score with
  | some _, some boxes, some scores =>
      boxes.length == scores.length && boxes.all (fun b => b.length == 7)
  | _, _, _ => false

/-- A record lacking at least one of the three accessed dictionary keys. -/
def missingField (s : Sample) : Bool :=
  s.frame_id.isNone || s.boxes_lidar.isNone || s.score.isNone

def fidOf (s : Sample) : String := s.frame_id.getD ""

/-- The output path line 22 computes for the record. -/
def pathOf (od : String) (s : Sample) : String := od ++ "/" ++ fidOf s ++ ".txt"

/-- The rendered line for one box/score pair (defined when the box has seven
    values). -/
def lineOf (b : Box) (s : Val) : String := ((formatBox b s).toOption).getD ""

/-- Concatenation of a list of written lines. -/
def concatLines : List String → String
  | [] => ""
  | l :: ls => l ++ concatLines ls

/-- The full file content written for a record that raises nothing. -/
def goodContent (s : Sample) : String :=
  concatLines (((s.boxes_lidar.getD []).zip (s.score.getD [])).map fun p => lineOf p.1 p.2)

def nlChar : Char := Char.ofNat 10

/-- Number of newline-terminated lines of a file body. -/
def lineCount (s : String) : Nat := s.data.countP (fun c => c == nlChar)

/-- A rendering of a numeric value contains no newline (true of Python's
    `str` on any number). -/
def cleanVal (v : Val) : Bool := v.data.all (fun c => c != nlChar)

/-- All values of the record render without newlines. -/
def cleanSampleB (s : Sample) : Bool :=
  (s.boxes_lidar.getD []).all (fun b => b.all cleanVal) && (s.score.getD []).all cleanVal

/-- Written following the words of the spec (§4.1 step 4c, §6 output format):
    the file holds one line per box, in input order, each line being the
    eight renderings `x y z length width height rotation score` separated by
    single spaces and terminated by a newline. -/
def specFrameFile (boxes : List Box) (scores : List Val) : String :=
  concatLines (List.zipWith (fun b s => String.intercalate " " (b ++ [s]) ++ "\n") boxes scores)

/-! ### File-table lemmas -/

lemma fsGetF_fsWriteF (m : List (String × String)) (q c p) :
    fsGetF (fsWriteF m q c) p = if q = p then some c else fsGetF m p := by
  induction m with
  | nil => simp [fsWriteF, fsGetF]
  | cons hd tl ih =>
    obtain ⟨a, d⟩ := hd
    by_cases haq : a = q
    · subst haq
      simp only [fsWriteF, if_pos rfl]
      by_cases hap : a = p <;> simp [fsGetF, hap]
    · simp only [fsWriteF, if_neg haq]
      by_cases hap : a = p
      · subst hap
        have : ¬ (q = a) := fun h => haq h.symm
        simp [fsGetF, this]
      · simp [fsGetF, hap, ih]

lemma fsGetF_applyWrites (ws : List (String × String)) (m : List (String × String)) (p : String) :
    fsGetF (applyWrites m ws) p =
      match lastWrite ws p with
      | some c => some c
      | none => fsGetF m p := by
  induction ws generalizing m with
  | nil => simp [applyWrites, lastWrite]
  | cons hd tl ih =>
    obtain ⟨q, c⟩ := hd
    simp only [applyWrites, lastWrite, ih (fsWriteF m q c)]
    cases lastWrite tl p with
    | some d => simp
    | none =>
      rw [fsGetF_fsWriteF]
      by_cases hqp : q = p <;> simp [hqp]

lemma applyWrites_twice (m : List (String × String)) (ws : List (String × String)) (p : String) :
    fsGetF (applyWrites (applyWrites m ws) ws) p = fsGetF (applyWrites m ws) p := by
  rw [fsGetF_applyWrites, fsGetF_applyWrites]
  cases lastWrite ws p with
  | some c => simp
  | none => simp [fsGetF_applyWrites]

lemma lastWrite_append_last (ws : List (String × String)) (p c : String) :
    lastWrite (ws ++ [(p, c)]) p = some c := by
  induction ws with
  | nil => simp [lastWrite]
  | cons hd tl ih =>
    obtain ⟨q, d⟩ := hd
    simp [lastWrite, ih]

lemma lastWrite_eq_none_of_not_mem (ws : List (String × String)) (p : String)
    (h : p ∉ ws.map Prod.fst) : lastWrite ws p = none := by
  induction ws with
  | nil => rfl
  | cons hd tl ih =>
    obtain ⟨q, d⟩ := hd
    simp only [List.map_cons, List.mem_cons] at h
    push_neg at h
    have hqp : ¬ q = p := fun hq => h.1 hq.symm
    simp [lastWrite, ih h.2, hqp]

lemma lastWrite_middle (ws1 ws2 : List (String × String)) (p c : String)
    (h : p ∉ ws2.map Prod.fst) :
    lastWrite (ws1 ++ (p, c) :: ws2) p = some c := by
  induction ws1 with
  | nil => simp [lastWrite, lastWrite_eq_none_of_not_mem ws2 p h]
  | cons hd tl ih =>
    obtain ⟨q, d⟩ := hd
    simp [lastWrite, ih]

/-! ### Bridge: the state transformer in terms of the pure effects -/

lemma processSample_eq (od : String) (w : World) (s : Sample) :
    ∃ msgs, processSample od w s =
      ({ files := match (sampleOut od s).1 with
                  | some pc => fsWriteF w.files pc.1 pc.2
                  | none => w.files,
         dirs := w.dirs,
         out := w.out ++ msgs }, (sampleOut od s).2) := by
  obtain ⟨fid?, boxes?, scores?⟩ := s
  cases fid? with
  | none => exact ⟨[], by simp [processSample, sampleOut]⟩
  | some fid =>
    cases boxes? with
    | none => exact ⟨[], by simp [processSample, sampleOut]⟩
    | some boxes =>
      cases scores? with
      | none => exact ⟨[], by simp [processSample, sampleOut]⟩
      | some scores =>
        simp only [processSample, sampleOut]
        rcases hwb : writeBoxLoop fid 0 (boxes.zip scores) "" [] with ⟨content, msgs2, err⟩
        cases err with
        | none =>
            refine ⟨["Writing to file: " ++ (od ++ "/" ++ fid ++ ".txt")] ++ msgs2
              ++ ["Completed writing for frame " ++ fid], ?_⟩
            simp [hwb, pushOut, writeFile, List.append_assoc]
        | some e =>
            refine ⟨["Writing to file: " ++ (od ++ "/" ++ fid ++ ".txt")] ++ msgs2, ?_⟩
            simp [hwb, pushOut, writeFile, List.append_assoc]

lemma sampleOut_none_err (od : String) (s : Sample)
    (h : (sampleOut od s).1 = none) : (sampleOut od s).2.isSome := by
  obtain ⟨fid?, boxes?, scores?⟩ := s
  cases fid? with
  | none => simp [sampleOut]
  | some fid =>
    cases boxes? with
    | none => simp [sampleOut]
    | some boxes =>
      cases scores? with
      | none => simp [sampleOut]
      | some scores => simp [sampleOut] at h

lemma processSamples_eq (od : String) (data : List Sample) (w : World) :
    ∃ msgs, processSamples od w data =
      ({ files := applyWrites w.files (runWrites od data),
         dirs := w.dirs,
         out := w.out ++ msgs }, runErr od data) := by
  induction data generalizing w with
  | nil => exact ⟨[], by simp [processSamples, runWrites, runErr, applyWrites]⟩
  | cons s rest ih =>
    obtain ⟨msgs1, h1⟩ := processSample_eq od w s
    rcases hso : sampleOut od s with ⟨ow, oe⟩
    rw [hso] at h1
    cases oe with
    | none =>
      cases ow with
      | none =>
        exfalso
        have := sampleOut_none_err od s (by rw [hso])
        rw [hso] at this
        simp at this
      | some pc =>
        simp only at h1
        obtain ⟨msgs2, h2⟩ := ih ⟨fsWriteF w.files pc.1 pc.2, w.dirs, w.out ++ msgs1⟩
        refine ⟨msgs1 ++ msgs2, ?_⟩
        simp only [processSamples, h1, h2, runWrites, runErr, hso]
        obtain ⟨p, c⟩ := pc
        simp [applyWrites, List.append_assoc]
    | some e =>
      refine ⟨msgs1, ?_⟩
      cases ow with
      | none =>
        simp only [processSamples, h1, runWrites, runErr, hso]
        simp [applyWrites]
      | some pc =>
        simp only [processSamples, h1, runWrites, runErr, hso]
        obtain ⟨p, c⟩ := pc
        simp [applyWrites]

@[simp] lemma pushOut_files (w : World) (m : String) : (pushOut w m).files = w.files := rfl

@[simp] lemma pushOut_dirs (w : World) (m : String) : (pushOut w m).dirs = w.dirs := rfl

@[simp] lemma pushOut_out (w : World) (m : String) : (pushOut w m).out = w.out ++ [m] := rfl

@[simp] lemma ensureDir_files (w : World) (d : String) : (ensureDir w d).files = w.files := by
  unfold ensureDir; split <;> rfl

@[simp] lemma ensureDir_out (w : World) (d : String) : (ensureDir w d).out = w.out := by
  unfold ensureDir; split <;> rfl

lemma ensureDir_dirs_congr (w w' : World) (d : String) (h : w.dirs = w'.dirs) :
    (ensureDir w d).dirs = (ensureDir w' d).dirs := by
  unfold ensureDir
  rw [h]
  split <;> simp [h]

@[simp] lemma mem_ensureDir_dirs (w : World) (d : String) : d ∈ (ensureDir w d).dirs := by
  unfold ensureDir
  by_cases h : w.dirs.contains d = true
  · rw [if_pos h]
    exact List.mem_of_elem_eq_true h
  · rw [if_neg h]
    simp

lemma bodyRun_ok_eq (pf od : String) (data : List Sample) (w : World) :
    ∃ msgs, bodyRun pf od (LoadResult.ok data) w =
      ({ files := applyWrites w.files (runWrites od data),
         dirs := (ensureDir w od).dirs,
         out := w.out ++ msgs }, runErr od data) := by
  cases data with
  | nil =>
    refine ⟨["Loading pickle file: " ++ pf, "Creating output directory: " ++ od,
      "No data found in pickle file."], ?_⟩
    show (pushOut (ensureDir (pushOut (pushOut w _) _) od) _, none) = _
    rw [Prod.mk.injEq]
    refine ⟨?_, by simp [runErr]⟩
    refine World.ext ?_ ?_ ?_
    · simp [runWrites, applyWrites]
    · simp only [pushOut_dirs]
      exact ensureDir_dirs_congr _ _ od rfl
    · simp [runWrites]
  | cons s rest =>
    obtain ⟨msgs, h⟩ :=
      processSamples_eq od (s :: rest) (ensureDir (pushOut (pushOut w
        ("Loading pickle file: " ++ pf)) ("Creating output directory: " ++ od)) od)
    refine ⟨["Loading pickle file: " ++ pf, "Creating output directory: " ++ od] ++ msgs, ?_⟩
    show processSamples od _ (s :: rest) = _
    rw [h, Prod.mk.injEq]
    refine ⟨World.ext ?_ ?_ ?_, rfl⟩
    · simp
    · simp only [pushOut_dirs]
      exact ensureDir_dirs_congr _ _ od rfl
    · simp

lemma pickle_to_txt_ok_world (pf od : String) (data : List Sample) (w : World) :
    ∃ w2, pickle_to_txt pf od (LoadResult.ok data) w = Outcome.normal none w2 ∧
      w2.files = applyWrites w.files (runWrites od data) ∧
      w2.dirs = (ensureDir w od).dirs := by
  obtain ⟨msgs, h⟩ := bodyRun_ok_eq pf od data w
  unfold pickle_to_txt
  rw [h]
  cases runErr od data with
  | none => exact ⟨_, rfl, rfl, rfl⟩
  | some e => exact ⟨_, rfl, rfl, rfl⟩

lemma errorReported_ok (pf od : String) (data : List Sample) (w : World) :
    errorReported pf od (LoadResult.ok data) w = (runErr od data).isSome := by
  obtain ⟨msgs, h⟩ := bodyRun_ok_eq pf od data w
  unfold errorReported
  rw [h]

lemma retOf_pickle_to_txt (pf od : String) (load : LoadResult) (w : World) :
    retOf (pickle_to_txt pf od load w) = none := by
  unfold pickle_to_txt
  rcases bodyRun pf od load w with ⟨w1, e⟩
  cases e <;> rfl

/-! ### Records that raise nothing -/

lemma formatBox_len7 (b : Box) (s : Val) (h : b.length = 7) :
    formatBox b s = Except.ok (lineOf b s) := by
  rcases b with _ | ⟨x, _ | ⟨y, _ | ⟨z, _ | ⟨l, _ | ⟨wd, _ | ⟨ht, _ | ⟨r, _ | ⟨e2, rest⟩⟩⟩⟩⟩⟩⟩⟩ <;>
    simp [formatBox, lineOf, Except.toOption] at h ⊢

lemma formatBox_err (b : Box) (s : Val) (h : b.length ≠ 7) :
    formatBox b s = Except.error (unpackErr b) := by
  rcases b with _ | ⟨x, _ | ⟨y, _ | ⟨z, _ | ⟨l, _ | ⟨wd, _ | ⟨ht, _ | ⟨r, _ | ⟨e2, rest⟩⟩⟩⟩⟩⟩⟩⟩ <;>
    simp [formatBox] at h ⊢

lemma writeBoxLoop_ok (fid : String) (pairs : List (Box × Val)) :
    ∀ j acc out, (∀ p ∈ pairs, p.1.length = 7) →
    ∃ msgs, writeBoxLoop fid j pairs acc out =
      (acc ++ concatLines (pairs.map fun p => lineOf p.1 p.2), out ++ msgs, none) := by
  induction pairs with
  | nil =>
    intro j acc out _
    exact ⟨[], by simp [writeBoxLoop, concatLines]⟩
  | cons p rest ih =>
    obtain ⟨b, s⟩ := p
    intro j acc out h
    have hb : b.length = 7 := h (b, s) (List.mem_cons_self _ _)
    obtain ⟨msgs, hr⟩ := ih (j + 1) (acc ++ lineOf b s)
      (out ++ ["Written box " ++ toString j ++ " for frame " ++ fid])
      (fun q hq => h q (List.mem_cons_of_mem _ hq))
    refine ⟨("Written box " ++ toString j ++ " for frame " ++ fid) :: msgs, ?_⟩
    simp only [writeBoxLoop, formatBox_len7 b s hb]
    rw [hr]
    simp [concatLines, String.append_assoc, List.append_assoc]

lemma sampleOut_good (od : String) (s : Sample) (h : goodSampleB s = true) :
    sampleOut od s = (some (pathOf od s, goodContent s), none) := by
  obtain ⟨fid?, boxes?, scores?⟩ := s
  cases fid? with
  | none => simp [goodSampleB] at h
  | some fid =>
    cases boxes? with
    | none => simp [goodSampleB] at h
    | some boxes =>
      cases scores? with
      | none => simp [goodSampleB] at h
      | some scores =>
        simp only [goodSampleB, Bool.and_eq_true, beq_iff_eq, List.all_eq_true] at h
        obtain ⟨hlen, hbox⟩ := h
        obtain ⟨msgs, hw⟩ := writeBoxLoop_ok fid (boxes.zip scores) 0 "" []
          (fun p hp => by
            have hm := (List.of_mem_zip hp).1
            simpa using hbox p.1 hm)
        simp only [sampleOut, hw]
        simp [pathOf, fidOf, goodContent, String.empty_append]

lemma runWrites_good (od : String) (data : List Sample)
    (h : ∀ s ∈ data, goodSampleB s = true) :
    runWrites od data = data.map (fun s => (pathOf od s, goodContent s)) := by
  induction data with
  | nil => rfl
  | cons s rest ih =>
    have hs := sampleOut_good od s (h s (List.mem_cons_self _ _))
    simp only [runWrites, hs, List.map_cons]
    rw [ih (fun q hq => h q (List.mem_cons_of_mem _ hq))]

lemma runErr_good (od : String) (data : List Sample)
    (h : ∀ s ∈ data, goodSampleB s = true) :
    runErr od data = none := by
  induction data with
  | nil => rfl
  | cons s rest ih =>
    have hs := sampleOut_good od s (h s (List.mem_cons_self _ _))
    simp only [runErr, hs]
    exact ih (fun q hq => h q (List.mem_cons_of_mem _ hq))

/-! ### Counting lines -/

lemma lineCount_append (a b : String) : lineCount (a ++ b) = lineCount a + lineCount b := by
  simp [lineCount, String.data_append, List.countP_append]

lemma lineCount_cleanVal (v : Val) (h : cleanVal v = true) : lineCount v = 0 := by
  simp only [lineCount, nlChar]
  rw [List.countP_eq_zero]
  intro c hc
  simp only [cleanVal, List.all_eq_true, nlChar] at h
  simpa using h c hc

lemma lineCount_lineOf (b : Box) (s : Val) (hb : b.length = 7)
    (hc : ∀ v ∈ b, cleanVal v = true) (hs : cleanVal s = true) :
    lineCount (lineOf b s) = 1 := by
  rcases b with _ | ⟨x, _ | ⟨y, _ | ⟨z, _ | ⟨l, _ | ⟨wd, _ | ⟨ht, _ | ⟨r, _ | ⟨e2, rest⟩⟩⟩⟩⟩⟩⟩⟩ <;>
    simp at hb
  have hx := lineCount_cleanVal x (hc x (by simp))
  have hy := lineCount_cleanVal y (hc y (by simp))
  have hz := lineCount_cleanVal z (hc z (by simp))
  have hl := lineCount_cleanVal l (hc l (by simp))
  have hwd := lineCount_cleanVal wd (hc wd (by simp))
  have hht := lineCount_cleanVal ht (hc ht (by simp))
  have hr := lineCount_cleanVal r (hc r (by simp))
  have hsc := lineCount_cleanVal s hs
  have hsp : lineCount " " = 0 := by decide
  have hnl : lineCount "\n" = 1 := by decide
  simp [lineOf, formatBox, Except.toOption, lineCount_append,
    hx, hy, hz, hl, hwd, hht, hr, hsc, hsp, hnl]

lemma lineCount_concat (pairs : List (Box × Val))
    (h : ∀ p ∈ pairs, p.1.length = 7 ∧ (∀ v ∈ p.1, cleanVal v = true) ∧ cleanVal p.2 = true) :
    lineCount (concatLines (pairs.map fun p => lineOf p.1 p.2)) = pairs.length := by
  induction pairs with
  | nil => simp [concatLines, lineCount]
  | cons p rest ih =>
    obtain ⟨hb, hcv, hcs⟩ := h p (List.mem_cons_self _ _)
    simp only [List.map_cons, concatLines, lineCount_append,
      lineCount_lineOf p.1 p.2 hb hcv hcs,
      ih (fun q hq => h q (List.mem_cons_of_mem _ hq)), List.length_cons]
    omega

lemma lineCount_goodContent (s : Sample) (hg : goodSampleB s = true)
    (hc : cleanSampleB s = true) :
    lineCount (goodContent s) = (s.boxes_lidar.getD []).length := by
  obtain ⟨fid?, boxes?, scores?⟩ := s
  cases fid? with
  | none => simp [goodSampleB] at hg
  | some fid =>
    cases boxes? with
    | none => simp [goodSampleB] at hg
    | some boxes =>
      cases scores? with
      | none => simp [goodSampleB] at hg
      | some scores =>
        simp only [goodSampleB, Bool.and_eq_true, beq_iff_eq, List.all_eq_true] at hg
        simp only [cleanSampleB, Bool.and_eq_true, List.all_eq_true, Option.getD_some] at hc
        obtain ⟨hlen, h7⟩ := hg
        obtain ⟨hcb, hcs⟩ := hc
        simp only [goodContent, Option.getD_some]
        rw [lineCount_concat]
        · simp [List.length_zip, hlen]
        · intro p hp
          obtain ⟨hp1, hp2⟩ := List.of_mem_zip hp
          exact ⟨by simpa using h7 p.1 hp1, fun v hv => hcb p.1 hp1 v hv, hcs p.2 hp2⟩

/-! ### Counting files -/

lemma fsWriteF_keys (m : List (String × String)) (p c : String) :
    (fsWriteF m p c).map Prod.fst =
      if p ∈ m.map Prod.fst then m.map Prod.fst else m.map Prod.fst ++ [p] := by
  induction m with
  | nil => simp [fsWriteF]
  | cons hd tl ih =>
    obtain ⟨q, d⟩ := hd
    by_cases hq : q = p
    · subst hq
      simp [fsWriteF]
    · have hq2 : ¬ p = q := fun h => hq h.symm
      simp only [fsWriteF, if_neg hq, List.map_cons, List.mem_cons]
      by_cases hp : p ∈ tl.map Prod.fst <;> simp [hp, hq2, ih]

lemma applyWrites_card (ws : List (String × String)) :
    ∀ m : List (String × String), (m.map Prod.fst).Nodup →
    (applyWrites m ws).length = (m.map Prod.fst ++ ws.map Prod.fst).toFinset.card := by
  induction ws with
  | nil =>
    intro m hm
    simp [applyWrites, List.card_toFinset, hm.dedup]
  | cons hd tl ih =>
    obtain ⟨p, c⟩ := hd
    intro m hm
    have hkeys := fsWriteF_keys m p c
    by_cases hp : p ∈ m.map Prod.fst
    · rw [if_pos hp] at hkeys
      have hnd : ((fsWriteF m p c).map Prod.fst).Nodup := by rw [hkeys]; exact hm
      simp only [applyWrites]
      rw [ih _ hnd, hkeys]
      congr 1
      ext a
      simp only [List.mem_toFinset, List.mem_append, List.map_cons, List.mem_cons]
      constructor
      · rintro (h | h)
        · exact Or.inl h
        · exact Or.inr (Or.inr h)
      · rintro (h | h | h)
        · exact Or.inl h
        · exact Or.inl (h ▸ hp)
        · exact Or.inr h
    · rw [if_neg hp] at hkeys
      have hnd : ((fsWriteF m p c).map Prod.fst).Nodup := by
        rw [hkeys]
        simp only [List.nodup_append, List.nodup_cons, List.nodup_nil]
        exact ⟨hm, by simp, by simpa using hp⟩
      simp only [applyWrites]
      rw [ih _ hnd, hkeys]
      congr 1
      ext a
      simp only [List.mem_toFinset, List.mem_append, List.map_cons, List.mem_cons,
        List.mem_singleton]
      tauto

/-! ### Output paths are injective in the frame identifier -/

lemma path_inj (od a b : String) (h : od ++ "/" ++ a ++ ".txt" = od ++ "/" ++ b ++ ".txt") :
    a = b := by
  have hd := congrArg String.data h
  simp only [String.data_append] at hd
  have h2 := List.append_cancel_right hd
  have h3 := List.append_cancel_left h2
  exact String.ext h3

lemma pathOf_inj (od : String) (s1 s2 : Sample) (h : pathOf od s1 = pathOf od s2) :
    fidOf s1 = fidOf s2 :=
  path_inj od (fidOf s1) (fidOf s2) h

/-! ### Fields present but arbitrary sequence lengths (the zip truncates) -/

lemma sampleOut_fields (od : String) (s : Sample) (fid : String) (boxes : List Box)
    (scores : List Val) (hf : s.frame_id = some fid) (hb : s.boxes_lidar = some boxes)
    (hs : s.score = some scores) (h7 : ∀ b ∈ boxes, b.length = 7) :
    sampleOut od s = (some (od ++ "/" ++ fid ++ ".txt",
      concatLines ((boxes.zip scores).map fun p => lineOf p.1 p.2)), none) := by
  obtain ⟨msgs, hw⟩ := writeBoxLoop_ok fid (boxes.zip scores) 0 "" []
    (fun p hp => h7 p.1 (List.of_mem_zip hp).1)
  simp only [sampleOut, hf, hb, hs, hw]
  simp [String.empty_append]

/-! ### Records that stop the run -/

lemma sampleOut_missing (od : String) (s : Sample) (h : missingField s = true) :
    (sampleOut od s).1 = none ∧ ∃ k, (sampleOut od s).2 = some (PyError.keyError k) := by
  obtain ⟨fid?, boxes?, scores?⟩ := s
  cases fid? <;> cases boxes? <;> cases scores? <;>
    simp [missingField, sampleOut] at h ⊢

lemma runWrites_stop (od : String) (goods : List Sample) (bad : Sample)
    (rest : List Sample) (hg : ∀ s ∈ goods, goodSampleB s = true)
    (hbad : (sampleOut od bad).1 = none) :
    runWrites od (goods ++ bad :: rest) = runWrites od goods := by
  induction goods with
  | nil =>
    simp only [List.nil_append, runWrites]
    rcases hso : sampleOut od bad with ⟨ow, oe⟩
    rw [hso] at hbad
    simp only at hbad
    subst hbad
    cases oe <;> rfl
  | cons s gs ih =>
    have hs := sampleOut_good od s (hg s (List.mem_cons_self _ _))
    simp only [List.cons_append, runWrites, hs, List.append_eq]
    rw [ih (fun q hq => hg q (List.mem_cons_of_mem _ hq))]

lemma runWrites_stop_write (od : String) (goods : List Sample) (bad : Sample)
    (rest : List Sample) (hg : ∀ s ∈ goods, goodSampleB s = true)
    (pc : String × String) (e : PyError) (hbad : sampleOut od bad = (some pc, some e)) :
    runWrites od (goods ++ bad :: rest) = runWrites od goods ++ [pc] := by
  induction goods with
  | nil => simp [runWrites, hbad]
  | cons s gs ih =>
    have hs := sampleOut_good od s (hg s (List.mem_cons_self _ _))
    simp only [List.cons_append, runWrites, hs, List.append_eq]
    rw [ih (fun q hq => hg q (List.mem_cons_of_mem _ hq))]

lemma runErr_stop (od : String) (goods : List Sample) (bad : Sample)
    (rest : List Sample) (e : PyError) (hg : ∀ s ∈ goods, goodSampleB s = true)
    (hbad : (sampleOut od bad).2 = some e) :
    runErr od (goods ++ bad :: rest) = some e := by
  induction goods with
  | nil => simp [runErr, hbad]
  | cons s gs ih =>
    have hs := sampleOut_good od s (hg s (List.mem_cons_self _ _))
    simp only [List.cons_append, runErr, hs]
    exact ih (fun q hq => hg q (List.mem_cons_of_mem _ hq))

lemma lastWrite_isSome (ws : List (String × String)) (p : String)
    (h : p ∈ ws.map Prod.fst) : (lastWrite ws p).isSome := by
  induction ws with
  | nil => simp at h
  | cons hd tl ih =>
    obtain ⟨q, c⟩ := hd
    simp only [List.map_cons, List.mem_cons] at h
    simp only [lastWrite]
    cases htl : lastWrite tl p with
    | some d => simp
    | none =>
      rcases h with h | h
      · simp [h.symm]
      · have h2 := ih h
        rw [htl] at h2
        simp at h2

/-! ### A box that fails to unpack -/

lemma writeBoxLoop_stop (fid : String) (pre : List (Box × Val)) (bad : Box) (sc : Val)
    (post : List (Box × Val)) :
    ∀ j acc out, (∀ p ∈ pre, p.1.length = 7) → bad.length ≠ 7 →
    ∃ msgs, writeBoxLoop fid j (pre ++ (bad, sc) :: post) acc out =
      (acc ++ concatLines (pre.map fun p => lineOf p.1 p.2), out ++ msgs,
        some (unpackErr bad)) := by
  induction pre with
  | nil =>
    intro j acc out _ hbad
    refine ⟨[], ?_⟩
    simp only [List.nil_append, writeBoxLoop, formatBox_err bad sc hbad]
    simp [concatLines]
  | cons p rest ih =>
    obtain ⟨b, s⟩ := p
    intro j acc out h7 hbad
    have hb : b.length = 7 := h7 (b, s) (List.mem_cons_self _ _)
    obtain ⟨msgs, hr⟩ := ih (j + 1) (acc ++ lineOf b s)
      (out ++ ["Written box " ++ toString j ++ " for frame " ++ fid])
      (fun q hq => h7 q (List.mem_cons_of_mem _ hq)) hbad
    refine ⟨("Written box " ++ toString j ++ " for frame " ++ fid) :: msgs, ?_⟩
    simp only [List.cons_append, writeBoxLoop, formatBox_len7 b s hb, List.append_eq]
    rw [hr]
    simp [concatLines, String.append_assoc, List.append_assoc]

lemma zip_split (pre : List Box) (bad : Box) (post : List Box) :
    ∀ scores : List Val, pre.length < scores.length →
    ∃ sc tail, (pre ++ bad :: post).zip scores = (pre.zip scores) ++ (bad, sc) :: tail := by
  induction pre with
  | nil =>
    intro scores h
    cases scores with
    | nil => simp at h
    | cons sc ss => exact ⟨sc, post.zip ss, by simp [List.zip_cons_cons]⟩
  | cons b bs ih =>
    intro scores h
    cases scores with
    | nil => simp at h
    | cons sc ss =>
      obtain ⟨sc2, tail, ht⟩ := ih ss (by simpa using h)
      refine ⟨sc2, tail, ?_⟩
      simp only [List.cons_append, List.zip_cons_cons, ht]

lemma sampleOut_badbox (od : String) (s : Sample) (fid : String) (pre : List Box)
    (bad : Box) (post : List Box) (scores : List Val)
    (hf : s.frame_id = some fid) (hb : s.boxes_lidar = some (pre ++ bad :: post))
    (hs : s.score = some scores) (h7 : ∀ b ∈ pre, b.length = 7)
    (hbad : bad.length ≠ 7) (hsc : pre.length < scores.length) :
    sampleOut od s = (some (od ++ "/" ++ fid ++ ".txt",
      concatLines ((pre.zip scores).map fun p => lineOf p.1 p.2)),
      some (unpackErr bad)) := by
  obtain ⟨sc, tail, hzip⟩ := zip_split pre bad post scores hsc
  obtain ⟨msgs, hw⟩ := writeBoxLoop_stop fid (pre.zip scores) bad sc tail 0 "" []
    (fun p hp => h7 p.1 (List.of_mem_zip hp).1) hbad
  simp only [sampleOut, hf, hb, hs, hzip, hw]
  simp [String.empty_append]

/-! ### The content written for a frame, in the words of the spec -/

lemma lineOf_eq_spec (b : Box) (s : Val) (hb : b.length = 7) :
    lineOf b s = String.intercalate " " (b ++ [s]) ++ "\n" := by
  rcases b with _ | ⟨x, _ | ⟨y, _ | ⟨z, _ | ⟨l, _ | ⟨wd, _ | ⟨ht, _ | ⟨r, _ | ⟨e2, rest⟩⟩⟩⟩⟩⟩⟩⟩ <;>
    simp at hb
  simp [lineOf, formatBox, Except.toOption, String.intercalate, String.intercalate.go,
    String.append_assoc]

lemma goodLines_eq_spec (boxes : List Box) (scores : List Val)
    (h7 : ∀ b ∈ boxes, b.length = 7) :
    concatLines ((boxes.zip scores).map fun p => lineOf p.1 p.2) =
      specFrameFile boxes scores := by
  unfold specFrameFile
  induction boxes generalizing scores with
  | nil => simp
  | cons b bs ih =>
    cases scores with
    | nil => simp
    | cons sc ss =>
      simp only [List.zip_cons_cons, List.map_cons, List.zipWith_cons_cons, concatLines]
      rw [show List.zipWith Prod.mk bs ss = bs.zip ss from rfl,
        ih ss (fun q hq => h7 q (List.mem_cons_of_mem _ hq)),
        lineOf_eq_spec b sc (h7 b (List.mem_cons_self _ _))]

/-! ### Concrete fixtures -/

def box1 : Box := ["1.0", "2.0", "3.0", "4.0", "5.0", "6.0", "0.1"]

/-- The spec's concrete scenario record. -/
def sampleGood : Sample := ⟨some "000001", some [box1], some ["0.87"]⟩

/-- Two boxes but a single score. -/
def sampleMismatch : Sample := ⟨some "000001", some [box1, box1], some ["0.87"]⟩

/-- A well-formed record with frame_id "a". -/
def sampleDup : Sample := ⟨some "a", some [box1], some ["0.5"]⟩

/-- A record whose `frame_id` key is absent. -/
def sampleNoFid : Sample := ⟨none, some [box1], some ["0.5"]⟩

/-- A record holding a two-value box. -/
def sampleShortBox : Sample := ⟨some "b", some [["1.0", "2.0"]], some ["0.5"]⟩

/-! ### The claims -/

/-- C1: for every frame record whose boxes and scores sequences have equal
length (each box carrying the seven geometric values of the data model), the
converter completes without error and writes to
`<output_directory>/<frame_id>.txt` one line per box in input order, the
file content being exactly the spec-side rendering `specFrameFile`: per box
the eight default decimal renderings separated by single spaces and
terminated by a newline. -/
theorem c1_per_frame_line_format (pf od : String) (s : Sample) (fid : String)
    (boxes : List Box) (scores : List Val)
    (hf : s.frame_id = some fid) (hb : s.boxes_lidar = some boxes)
    (hs : s.score = some scores) (hlen : boxes.length = scores.length)
    (h7 : ∀ b ∈ boxes, b.length = 7) :
    errorReported pf od (LoadResult.ok [s]) emptyWorld = false ∧
    fsGet (worldOf (pickle_to_txt pf od (LoadResult.ok [s]) emptyWorld))
      (od ++ "/" ++ fid ++ ".txt") = some (specFrameFile boxes scores) := by
  have hgood : goodSampleB s = true := by
    simp only [goodSampleB, hf, hb, hs, Bool.and_eq_true, beq_iff_eq, List.all_eq_true]
    exact ⟨hlen, fun b hb2 => by simpa using h7 b hb2⟩
  have hall : ∀ q ∈ [s], goodSampleB q = true := by
    intro q hq
    simp only [List.mem_singleton] at hq
    subst hq
    exact hgood
  have hre := runErr_good od [s] hall
  have hrw := runWrites_good od [s] hall
  constructor
  · rw [errorReported_ok, hre]
    rfl
  · obtain ⟨w2, hw2, hfiles, _⟩ := pickle_to_txt_ok_world pf od [s] emptyWorld
    rw [hw2]
    simp only [worldOf]
    unfold fsGet
    rw [hfiles, hrw]
    simp only [List.map_cons, List.map_nil]
    have hpath : pathOf od s = od ++ "/" ++ fid ++ ".txt" := by
      simp [pathOf, fidOf, hf]
    show fsGetF (applyWrites emptyWorld.files [(pathOf od s, goodContent s)]) _ = _
    simp only [applyWrites, emptyWorld, fsWriteF, hpath]
    simp only [fsGetF, if_pos rfl]
    have hcontent : goodContent s = specFrameFile boxes scores := by
      unfold goodContent
      rw [hb, hs]
      simp only [Option.getD_some]
      exact goodLines_eq_spec boxes scores h7
    rw [hcontent]
    simp

/-- C1 witness: the spec's concrete scenario — a single frame `000001` with
one box `[1.0,2.0,3.0,4.0,5.0,6.0,0.1]` and score `0.87` yields the file
`out/000001.txt` holding exactly the expected line. -/
theorem c1_witness :
    errorReported "in.pkl" "out" (LoadResult.ok [sampleGood]) emptyWorld = false ∧
    fsGet (worldOf (pickle_to_txt "in.pkl" "out" (LoadResult.ok [sampleGood]) emptyWorld))
      ("out" ++ "/" ++ "000001" ++ ".txt") = some (specFrameFile [box1] ["0.87"]) :=
  c1_per_frame_line_format "in.pkl" "out" sampleGood "000001" [box1] ["0.87"]
    rfl rfl rfl rfl (by decide)

/-- C2 counterexample: a two-frame ResultSet whose frames share the
frame_id "a" (each frame well-formed with one box) yields a single output
file, not two — the claim's "exactly N output files" fails without an
assumption that the frame_id values are distinct. -/
theorem c2_counterexample :
    (worldOf (pickle_to_txt "in.pkl" "out" (LoadResult.ok [sampleDup, sampleDup])
      emptyWorld)).files.length = 1 ∧
    [sampleDup, sampleDup].length = 2 ∧
    errorReported "in.pkl" "out" (LoadResult.ok [sampleDup, sampleDup]) emptyWorld = false := by
  refine ⟨?_, ?_, ?_⟩ <;> decide

/-- C2 amended: for every ResultSet whose frames are well-formed (all three
fields present, equal-length sequences, seven-value boxes, renderings free
of newlines) and whose frame_id values are PAIRWISE DISTINCT, the run
reports no error, produces exactly N output files for N frames, and the
file of each frame holds exactly as many lines as that frame has boxes. -/
theorem c2_file_and_line_counts (pf od : String) (data : List Sample)
    (hg : ∀ s ∈ data, goodSampleB s = true)
    (hc : ∀ s ∈ data, cleanSampleB s = true)
    (hnd : (data.map fidOf).Nodup) :
    errorReported pf od (LoadResult.ok data) emptyWorld = false ∧
    (worldOf (pickle_to_txt pf od (LoadResult.ok data) emptyWorld)).files.length
      = data.length ∧
    ∀ s ∈ data, ∃ c, fsGet (worldOf (pickle_to_txt pf od (LoadResult.ok data) emptyWorld))
      (pathOf od s) = some c ∧ lineCount c = (s.boxes_lidar.getD []).length := by
  have hre := runErr_good od data hg
  have hrw := runWrites_good od data hg
  obtain ⟨w2, hw2, hfiles, _⟩ := pickle_to_txt_ok_world pf od data emptyWorld
  have hpathf : data.map (fun s => pathOf od s) =
      (data.map fidOf).map (fun a => od ++ "/" ++ a ++ ".txt") := by
    rw [List.map_map]
    rfl
  have hndp : (data.map (fun s => pathOf od s)).Nodup := by
    rw [hpathf]
    exact hnd.map (fun a b hab => path_inj od a b hab)
  refine ⟨?_, ?_, ?_⟩
  · rw [errorReported_ok, hre]
    rfl
  · rw [hw2]
    simp only [worldOf]
    rw [hfiles, hrw]
    rw [applyWrites_card _ _ (by decide)]
    show (List.map Prod.fst (List.map _ data)).toFinset.card = _
    rw [List.map_map]
    have : (Prod.fst ∘ fun s => (pathOf od s, goodContent s)) = fun s => pathOf od s := rfl
    rw [this, List.toFinset_card_of_nodup hndp, List.length_map]
  · intro s hsmem
    obtain ⟨l1, l2, hsplit⟩ := List.append_of_mem hsmem
    have hnotin : pathOf od s ∉ (l2.map (fun t => (pathOf od t, goodContent t))).map Prod.fst := by
      rw [List.map_map]
      have : (Prod.fst ∘ fun t => (pathOf od t, goodContent t)) = fun t => pathOf od t := rfl
      rw [this]
      intro hmem
      obtain ⟨t, ht, hpt⟩ := List.mem_map.mp hmem
      have hfid : fidOf t = fidOf s := pathOf_inj od t s hpt
      rw [hsplit] at hnd
      simp only [List.map_append, List.map_cons, List.nodup_append] at hnd
      have := hnd.2.1
      simp only [List.nodup_cons] at this
      exact this.1 (hfid ▸ List.mem_map_of_mem fidOf ht)
    refine ⟨goodContent s, ?_, ?_⟩
    · rw [hw2]
      simp only [worldOf]
      unfold fsGet
      rw [hfiles, hrw, hsplit]
      rw [fsGetF_applyWrites]
      simp only [List.map_append, List.map_cons]
      rw [lastWrite_middle _ _ _ _ hnotin]
    · exact lineCount_goodContent s (hg s hsmem) (hc s hsmem)

/-- C2 witness: a single well-formed frame (the spec scenario record) gives
no error and exactly one output file. -/
theorem c2_witness :
    errorReported "in.pkl" "out" (LoadResult.ok [sampleGood]) emptyWorld = false ∧
    (worldOf (pickle_to_txt "in.pkl" "out" (LoadResult.ok [sampleGood])
      emptyWorld)).files.length = 1 :=
  ⟨(c2_file_and_line_counts "in.pkl" "out" [sampleGood] (by decide) (by decide)
      (by decide)).1,
   (c2_file_and_line_counts "in.pkl" "out" [sampleGood] (by decide) (by decide)
      (by decide)).2.1⟩

/-- C3 counterexample: for the frame `000001` holding TWO seven-value boxes
and ONE score, the run reports no error and writes a single-line file: the
pairing is silently truncated to the shorter sequence, so the claim's
"fails with a reported error" is false. -/
theorem c3_counterexample :
    errorReported "in.pkl" "out" (LoadResult.ok [sampleMismatch]) emptyWorld = false ∧
    fsGet (worldOf (pickle_to_txt "in.pkl" "out" (LoadResult.ok [sampleMismatch]) emptyWorld))
      "out/000001.txt" = some "1.0 2.0 3.0 4.0 5.0 6.0 0.1 0.87\n" ∧
    (sampleMismatch.boxes_lidar.getD []).length = 2 ∧
    lineCount "1.0 2.0 3.0 4.0 5.0 6.0 0.1 0.87\n" = 1 := by
  refine ⟨?_, ?_, ?_, ?_⟩ <;> decide

/-- C3 amended: a frame whose boxes and scores sequences differ in length is
converted WITHOUT any reported error; the boxes are silently paired with the
scores index by index up to the shorter of the two sequences, and exactly
min(len(boxes), len(scores)) lines are written — no signal of the mismatch
is produced. -/
theorem c3_silent_truncation (pf od : String) (s : Sample) (fid : String)
    (boxes : List Box) (scores : List Val)
    (hf : s.frame_id = some fid) (hb : s.boxes_lidar = some boxes)
    (hs : s.score = some scores) (h7 : ∀ b ∈ boxes, b.length = 7)
    (hcb : ∀ b ∈ boxes, ∀ v ∈ b, cleanVal v = true)
    (hcs : ∀ v ∈ scores, cleanVal v = true) :
    errorReported pf od (LoadResult.ok [s]) emptyWorld = false ∧
    ∃ c, fsGet (worldOf (pickle_to_txt pf od (LoadResult.ok [s]) emptyWorld))
      (od ++ "/" ++ fid ++ ".txt") = some c ∧
      lineCount c = min boxes.length scores.length := by
  have hso := sampleOut_fields od s fid boxes scores hf hb hs h7
  have hre : runErr od [s] = none := by simp [runErr, hso]
  have hrw : runWrites od [s] = [(od ++ "/" ++ fid ++ ".txt",
      concatLines ((boxes.zip scores).map fun p => lineOf p.1 p.2))] := by
    simp [runWrites, hso]
  constructor
  · rw [errorReported_ok, hre]
    rfl
  · obtain ⟨w2, hw2, hfiles, _⟩ := pickle_to_txt_ok_world pf od [s] emptyWorld
    refine ⟨concatLines ((boxes.zip scores).map fun p => lineOf p.1 p.2), ?_, ?_⟩
    · rw [hw2]
      simp only [worldOf]
      unfold fsGet
      rw [hfiles, hrw]
      show fsGetF (applyWrites emptyWorld.files _) _ = _
      simp only [applyWrites, emptyWorld, fsWriteF]
      simp only [fsGetF, if_pos rfl]
      simp
    · rw [lineCount_concat]
      · simp [List.length_zip]
      · intro p hp
        obtain ⟨hp1, hp2⟩ := List.of_mem_zip hp
        exact ⟨h7 p.1 hp1, fun v hv => hcb p.1 hp1 v hv, hcs p.2 hp2⟩

/-- C3 amended witness: the two-box one-score frame gives no error and a
one-line file, and min(2, 1) = 1. -/
theorem c3_witness :
    errorReported "in2.pkl" "outdir" (LoadResult.ok [sampleMismatch]) emptyWorld = false ∧
    ∃ c, fsGet (worldOf (pickle_to_txt "in2.pkl" "outdir" (LoadResult.ok [sampleMismatch])
      emptyWorld)) ("outdir" ++ "/" ++ "000001" ++ ".txt") = some c ∧
      lineCount c = min [box1, box1].length ["0.87"].length :=
  c3_silent_truncation "in2.pkl" "outdir" sampleMismatch "000001" [box1, box1] ["0.87"]
    rfl rfl rfl (by decide) (by decide) (by decide)

/-- C4 counterexample: a successful one-frame run writes one file yet the
function's return value is `none` (Python `None`), not the integer count 1 —
the converter does not return the number of files written. -/
theorem c4_counterexample :
    retOf (pickle_to_txt "in.pkl" "out" (LoadResult.ok [sampleGood]) emptyWorld) = none ∧
    (worldOf (pickle_to_txt "in.pkl" "out" (LoadResult.ok [sampleGood])
      emptyWorld)).files.length = 1 ∧
    retOf (pickle_to_txt "in.pkl" "out" (LoadResult.ok [sampleGood]) emptyWorld) ≠ some 1 := by
  refine ⟨?_, ?_, ?_⟩ <;> decide

/-- C4 amended: for every input the converter returns `None` to its caller —
no count of frames processed is returned; progress is only printed. -/
theorem c4_returns_none (pf od : String) (load : LoadResult) (w : World) :
    retOf (pickle_to_txt pf od load w) = none :=
  retOf_pickle_to_txt pf od load w

/-- C5: every exception raised during the run is caught at the single
top-level boundary: the converter always returns normally with `None`, and
whenever the body raised `e`, the line `"An error occurred: " ++ errMsg e`
is printed to standard output as the final action. -/
theorem c5_catch_all (pf od : String) (load : LoadResult) (w : World) :
    (∃ w2, pickle_to_txt pf od load w = Outcome.normal none w2) ∧
    ∀ w1 e, bodyRun pf od load w = (w1, some e) →
      pickle_to_txt pf od load w =
        Outcome.normal none (pushOut w1 ("An error occurred: " ++ errMsg e)) := by
  constructor
  · unfold pickle_to_txt
    rcases bodyRun pf od load w with ⟨w1, e⟩
    cases e
    · exact ⟨w1, rfl⟩
    · exact ⟨_, rfl⟩
  · intro w1 e h
    unfold pickle_to_txt
    rw [h]

/-- C5 witness: an unreadable pickle file with message "boom" is caught; the
converter returns normally after printing "An error occurred: boom". -/
theorem c5_witness :
    pickle_to_txt "in.pkl" "out" (LoadResult.err "boom") emptyWorld =
      Outcome.normal none (pushOut (pushOut emptyWorld "Loading pickle file: in.pkl")
        "An error occurred: boom") :=
  (c5_catch_all "in.pkl" "out" (LoadResult.err "boom") emptyWorld).2
    (pushOut emptyWorld "Loading pickle file: in.pkl") (PyError.loadError "boom") rfl

/-- C6: an empty ResultSet terminates successfully: the files on disk are
untouched (zero files created), the output directory is nevertheless
created, no error is reported, and the caller receives a normal `None`
return. -/
theorem c6_empty_resultset (pf od : String) (w : World) :
    ∃ w2, pickle_to_txt pf od (LoadResult.ok []) w = Outcome.normal none w2 ∧
      w2.files = w.files ∧ od ∈ w2.dirs ∧
      errorReported pf od (LoadResult.ok []) w = false := by
  obtain ⟨w2, h, hf, hd⟩ := pickle_to_txt_ok_world pf od [] w
  refine ⟨w2, h, ?_, ?_, ?_⟩
  · rw [hf]
    rfl
  · rw [hd]
    exact mem_ensureDir_dirs w od
  · rw [errorReported_ok]
    rfl

lemma toFinset_card_map_of_injective (f : String → String) (hf : Function.Injective f)
    (l : List String) : ((l.map f).toFinset).card = l.toFinset.card := by
  induction l with
  | nil => simp
  | cons a l ih =>
    simp only [List.map_cons, List.toFinset_cons]
    have hmem : f a ∈ (l.map f).toFinset ↔ a ∈ l.toFinset := by
      simp only [List.mem_toFinset, List.mem_map]
      constructor
      · rintro ⟨b, hb, hfb⟩
        exact (hf hfb) ▸ hb
      · intro h
        exact ⟨a, h, rfl⟩
    by_cases ha : a ∈ l.toFinset
    · rw [Finset.insert_eq_self.mpr (hmem.mpr ha), Finset.insert_eq_self.mpr ha, ih]
    · rw [Finset.card_insert_of_not_mem (fun h => ha (hmem.mp h)),
        Finset.card_insert_of_not_mem ha, ih]

lemma pickle_to_txt_err (pf od : String) (load : LoadResult) (w : World) (e : PyError)
    (h : (bodyRun pf od load w).2 = some e) :
    pickle_to_txt pf od load w =
      Outcome.normal none (pushOut (bodyRun pf od load w).1
        ("An error occurred: " ++ errMsg e)) := by
  unfold pickle_to_txt
  rcases hbr : bodyRun pf od load w with ⟨w1, e2⟩
  rw [hbr] at h
  simp only at h
  subst h
  rfl

/-- C7: for a ResultSet whose prefix consists of well-formed records followed
by one record missing a dictionary key, the run reports an error (a caught
`KeyError`), the files on disk are exactly those a run on the prefix alone
would write (so the later records were never processed — the result does not
depend on them), and each prefix record's file is present. -/
theorem c7_missing_field (pf od : String) (goods : List Sample) (bad : Sample)
    (rest : List Sample) (hg : ∀ s ∈ goods, goodSampleB s = true)
    (hbad : missingField bad = true) :
    errorReported pf od (LoadResult.ok (goods ++ bad :: rest)) emptyWorld = true ∧
    (worldOf (pickle_to_txt pf od (LoadResult.ok (goods ++ bad :: rest)) emptyWorld)).files
      = (worldOf (pickle_to_txt pf od (LoadResult.ok goods) emptyWorld)).files ∧
    ∀ s ∈ goods, (fsGet (worldOf (pickle_to_txt pf od
      (LoadResult.ok (goods ++ bad :: rest)) emptyWorld)) (pathOf od s)).isSome := by
  obtain ⟨hnone, k, hkey⟩ := sampleOut_missing od bad hbad
  have hrw := runWrites_stop od goods bad rest hg hnone
  have hrE := runErr_stop od goods bad rest (PyError.keyError k) hg hkey
  obtain ⟨w2, hw2, hfiles, _⟩ := pickle_to_txt_ok_world pf od (goods ++ bad :: rest) emptyWorld
  obtain ⟨w3, hw3, hfiles3, _⟩ := pickle_to_txt_ok_world pf od goods emptyWorld
  refine ⟨?_, ?_, ?_⟩
  · rw [errorReported_ok, hrE]
    rfl
  · rw [hw2, hw3]
    simp only [worldOf]
    rw [hfiles, hfiles3, hrw]
  · intro s hsmem
    rw [hw2]
    simp only [worldOf]
    unfold fsGet
    rw [hfiles, hrw, runWrites_good od goods hg]
    show (fsGetF (applyWrites emptyWorld.files _) _).isSome
    rw [fsGetF_applyWrites]
    have hmem : pathOf od s ∈
        (goods.map fun t => (pathOf od t, goodContent t)).map Prod.fst := by
      rw [List.map_map]
      exact List.mem_map_of_mem _ hsmem
    have hsome := lastWrite_isSome _ _ hmem
    rcases hlw : lastWrite (goods.map fun t => (pathOf od t, goodContent t)) (pathOf od s)
      with _ | c
    · rw [hlw] at hsome
      simp at hsome
    · simp

/-- C7 witness: one good frame followed by a record lacking `frame_id` —
the error is reported and the disk holds exactly the good frame's file. -/
theorem c7_witness :
    errorReported "in.pkl" "out" (LoadResult.ok ([sampleGood] ++ sampleNoFid :: []))
      emptyWorld = true ∧
    (worldOf (pickle_to_txt "in.pkl" "out"
      (LoadResult.ok ([sampleGood] ++ sampleNoFid :: [])) emptyWorld)).files
      = (worldOf (pickle_to_txt "in.pkl" "out" (LoadResult.ok [sampleGood])
          emptyWorld)).files :=
  ⟨(c7_missing_field "in.pkl" "out" [sampleGood] sampleNoFid [] (by decide) (by decide)).1,
   (c7_missing_field "in.pkl" "out" [sampleGood] sampleNoFid [] (by decide)
      (by decide)).2.1⟩

/-- C8: running the converter a second time with the identical ResultSet on
the same output directory leaves every file byte-for-byte identical to the
single run: each per-frame file is truncated and rewritten with the same
content, for any initial disk state (so pre-existing files of the same name
are fully overwritten). -/
theorem c8_rerun_identical (pf od : String) (data : List Sample) (w : World) (p : String) :
    fsGet (worldOf (pickle_to_txt pf od (LoadResult.ok data)
        (worldOf (pickle_to_txt pf od (LoadResult.ok data) w)))) p =
      fsGet (worldOf (pickle_to_txt pf od (LoadResult.ok data) w)) p := by
  obtain ⟨w1, h1, hf1, _⟩ := pickle_to_txt_ok_world pf od data w
  rw [h1]
  simp only [worldOf]
  obtain ⟨w2, h2, hf2, _⟩ := pickle_to_txt_ok_world pf od data w1
  rw [h2]
  simp only [worldOf]
  unfold fsGet
  rw [hf2, hf1]
  exact applyWrites_twice w.files (runWrites od data) p

/-- C9: for a well-formed ResultSet in which some frame_id repeats, the run
still completes without error; the number of files on disk equals the number
of DISTINCT frame_id values, strictly fewer than the number of frames, and
the file at a frame's path holds the content of the LAST record writing that
path (later records truncate and replace earlier ones). -/
theorem c9_duplicate_frame_ids (pf od : String) (data : List Sample)
    (hg : ∀ s ∈ data, goodSampleB s = true)
    (hdup : ¬ (data.map fidOf).Nodup) :
    errorReported pf od (LoadResult.ok data) emptyWorld = false ∧
    (worldOf (pickle_to_txt pf od (LoadResult.ok data) emptyWorld)).files.length
      = (data.map fidOf).toFinset.card ∧
    (data.map fidOf).toFinset.card < data.length ∧
    ∀ l1 s l2, data = l1 ++ s :: l2 → (∀ t ∈ l2, pathOf od t ≠ pathOf od s) →
      fsGet (worldOf (pickle_to_txt pf od (LoadResult.ok data) emptyWorld)) (pathOf od s)
        = some (goodContent s) := by
  have hre := runErr_good od data hg
  have hrw := runWrites_good od data hg
  obtain ⟨w2, hw2, hfiles, _⟩ := pickle_to_txt_ok_world pf od data emptyWorld
  refine ⟨?_, ?_, ?_, ?_⟩
  · rw [errorReported_ok, hre]
    rfl
  · rw [hw2]
    simp only [worldOf]
    rw [hfiles, hrw, applyWrites_card _ _ (by decide)]
    show (List.map Prod.fst (List.map _ data)).toFinset.card = _
    rw [List.map_map]
    have hcomp : (Prod.fst ∘ fun s => (pathOf od s, goodContent s))
        = fun s => pathOf od s := rfl
    rw [hcomp]
    have hmaps : List.map (fun s => pathOf od s) data
        = List.map (fun a => od ++ "/" ++ a ++ ".txt") (data.map fidOf) := by
      rw [List.map_map]
      rfl
    rw [hmaps,
      toFinset_card_map_of_injective _ (fun a b hab => path_inj od a b hab) _]
  · rw [List.card_toFinset]
    have hsub : (data.map fidOf).dedup.Sublist (data.map fidOf) := List.dedup_sublist _
    have hle := hsub.length_le
    have hne : (data.map fidOf).dedup ≠ (data.map fidOf) :=
      fun he => hdup (he ▸ List.nodup_dedup _)
    have hlt : (data.map fidOf).dedup.length < (data.map fidOf).length := by
      rcases lt_or_eq_of_le hle with h | h
      · exact h
      · exact absurd (hsub.eq_of_length h) hne
    simpa using hlt
  · intro l1 s l2 hsplit hlast
    rw [hw2]
    simp only [worldOf]
    unfold fsGet
    rw [hfiles, hrw, hsplit]
    rw [fsGetF_applyWrites]
    simp only [List.map_append, List.map_cons]
    rw [lastWrite_middle _ _ _ _ (by
      rw [List.map_map]
      intro hmem
      obtain ⟨t, ht, hpt⟩ := List.mem_map.mp hmem
      exact hlast t ht hpt)]

/-- C9 witness: two frames both named "a" give no error, one file on disk,
and 1 < 2. -/
theorem c9_witness :
    errorReported "in.pkl" "out" (LoadResult.ok [sampleDup, sampleDup]) emptyWorld = false ∧
    (worldOf (pickle_to_txt "in.pkl" "out" (LoadResult.ok [sampleDup, sampleDup])
      emptyWorld)).files.length = ([sampleDup, sampleDup].map fidOf).toFinset.card ∧
    ([sampleDup, sampleDup].map fidOf).toFinset.card < [sampleDup, sampleDup].length :=
  ⟨(c9_duplicate_frame_ids "in.pkl" "out" [sampleDup, sampleDup] (by decide) (by decide)).1,
   (c9_duplicate_frame_ids "in.pkl" "out" [sampleDup, sampleDup] (by decide)
      (by decide)).2.1,
   (c9_duplicate_frame_ids "in.pkl" "out" [sampleDup, sampleDup] (by decide)
      (by decide)).2.2.1⟩

/-- C10: a record holding a box of length ≠ 7 (reached by the zip pairing)
aborts the run at that box: the tuple-unpacking error is the raised
exception, it is caught and printed rather than propagated (the converter
returns normally), and the record's file holds exactly the lines of the
boxes before the bad one — a partially-filled file. Later records are never
processed (the result does not depend on them). -/
theorem c10_bad_box (pf od : String) (goods : List Sample) (s : Sample)
    (rest : List Sample) (fid : String) (pre : List Box) (bad : Box) (post : List Box)
    (scores : List Val)
    (hg : ∀ t ∈ goods, goodSampleB t = true)
    (hf : s.frame_id = some fid) (hb : s.boxes_lidar = some (pre ++ bad :: post))
    (hs : s.score = some scores) (h7 : ∀ b ∈ pre, b.length = 7)
    (hbad : bad.length ≠ 7) (hsc : pre.length < scores.length) :
    (bodyRun pf od (LoadResult.ok (goods ++ s :: rest)) emptyWorld).2
        = some (unpackErr bad) ∧
    pickle_to_txt pf od (LoadResult.ok (goods ++ s :: rest)) emptyWorld =
      Outcome.normal none
        (pushOut (bodyRun pf od (LoadResult.ok (goods ++ s :: rest)) emptyWorld).1
          ("An error occurred: " ++ errMsg (unpackErr bad))) ∧
    fsGet (worldOf (pickle_to_txt pf od (LoadResult.ok (goods ++ s :: rest)) emptyWorld))
        (od ++ "/" ++ fid ++ ".txt")
      = some (concatLines ((pre.zip scores).map fun p => lineOf p.1 p.2)) := by
  have hso := sampleOut_badbox od s fid pre bad post scores hf hb hs h7 hbad hsc
  have hrE := runErr_stop od goods s rest (unpackErr bad) hg (by rw [hso])
  have hrw := runWrites_stop_write od goods s rest hg _ _ hso
  obtain ⟨msgs, hbody⟩ := bodyRun_ok_eq pf od (goods ++ s :: rest) emptyWorld
  have h2 : (bodyRun pf od (LoadResult.ok (goods ++ s :: rest)) emptyWorld).2
      = some (unpackErr bad) := by
    rw [hbody]
    exact hrE
  refine ⟨h2, pickle_to_txt_err _ _ _ _ _ h2, ?_⟩
  rw [pickle_to_txt_err _ _ _ _ _ h2]
  simp only [worldOf, pushOut_files]
  show fsGetF (bodyRun pf od (LoadResult.ok (goods ++ s :: rest)) emptyWorld).1.files _ = _
  rw [hbody]
  show fsGetF (applyWrites emptyWorld.files (runWrites od (goods ++ s :: rest))) _ = _
  rw [hrw, fsGetF_applyWrites, lastWrite_append_last]

/-- C10 witness: a lone record with the two-value box `["1.0","2.0"]` and one
score — the "not enough values to unpack" error is caught and printed, and
the frame's file is committed empty (no earlier boxes). -/
theorem c10_witness :
    (bodyRun "in.pkl" "out" (LoadResult.ok ([] ++ sampleShortBox :: [])) emptyWorld).2
        = some (unpackErr ["1.0", "2.0"]) ∧
    pickle_to_txt "in.pkl" "out" (LoadResult.ok ([] ++ sampleShortBox :: [])) emptyWorld =
      Outcome.normal none
        (pushOut (bodyRun "in.pkl" "out" (LoadResult.ok ([] ++ sampleShortBox :: []))
            emptyWorld).1
          ("An error occurred: " ++ errMsg (unpackErr ["1.0", "2.0"]))) ∧
    fsGet (worldOf (pickle_to_txt "in.pkl" "out"
        (LoadResult.ok ([] ++ sampleShortBox :: [])) emptyWorld))
        ("out" ++ "/" ++ "b" ++ ".txt")
      = some (concatLines ((([] : List Box).zip ["0.5"]).map fun p => lineOf p.1 p.2)) :=
  c10_bad_box "in.pkl" "out" [] sampleShortBox [] "b" [] ["1.0", "2.0"] [] ["0.5"]
    (by decide) rfl rfl rfl (by decide) (by decide) (by decide)

end GetResults
